import Mathlib

/-!
Verification of gitlab-settings-enforcer (reconciliation engine).

This file gives a shallow embedding, in Lean 4, of the core logic of the
repository — group-path resolution (GetSubgroupID), project discovery with
whitelist/blacklist filtering and pagination (GetProjects), branch-protection
enforcement (EnsureBranchesAndProtection / ensureDefaultBranch), settings and
approval reconciliation with before/after snapshot recording
(UpdateProjectSettings / UpdateProjectApprovalSettings / recordSettings), the
sync command loop (cmd/sync.go), and the change-log aggregation
(GenerateChangeLogReport) — and proves or refutes the frozen claims about it.

Go maps keyed by strings are embedded as association lists together with a
keyed lookup (alistGet) and a keyed overwrite (alistSet), which realise Go map
indexing and assignment. The remote GitLab service is embedded as an
environment of response functions; since no claim concerns a remote whose
state changes between two reads of the same endpoint, environments are
read-deterministic (the dry-run claim explicitly assumes exactly that).
Remote calls are recorded in an explicit event trace.
-/

namespace GSE

/-- A leaf field assignment list: our embedding of the flat field content of a
settings struct (field name, rendered value).  The gitlab.Project and
gitlab.ProjectApprovals structs of the source are opaque bags of leaf fields
as far as every claim is concerned. -/
abbrev Fields := List (String × String)

/-- ProjectSettings, from src/unnamed/part_002: the per-project snapshot
record holding the approval section and the general section. -/
structure ProjectSettings where
  approval : Fields
  general : Fields
deriving DecidableEq, Repr

/-- The zero value ProjectSettings value of Go, as created by recordSettings when
no entry exists yet. -/
def ProjectSettings.empty : ProjectSettings := ⟨[], []⟩

/-- Keyed lookup on an association list: Go map read m[k]. -/
def alistGet (k : String) : List (String × α) → Option α
  | [] => none
  | (k', v) :: rest => if k' = k then some v else alistGet k rest

/-- Keyed overwrite on an association list: Go map assignment m[k] = v
(replaces the first binding of k, appends if absent). -/
def alistSet (k : String) (v : α) : List (String × α) → List (String × α)
  | [] => [(k, v)]
  | (k', v') :: rest => if k' = k then (k, v) :: rest else (k', v') :: alistSet k v rest

/-- The snapshot maps OriginalSettings / UpdatedSettings of ProjectManager:
Go map from project full path to ProjectSettings. -/
abbrev SettingsMap := List (String × ProjectSettings)

/-- recordSettingsParams, from src/pkg/gitlab/project_manager.go lines
485-491. -/
structure recordSettingsParams where
  settingMap : SettingsMap
  fullPath : String
  approval_settings : Option Fields
  general_settings : Option Fields

/-- recordSettings, from src/pkg/gitlab/project_manager.go lines 493-507:
create the entry if absent, then overlay the approval section when provided
and the general section when provided. -/
def recordSettings (params : recordSettingsParams) : SettingsMap :=
  let base := (alistGet params.fullPath params.settingMap).getD ProjectSettings.empty
  let s1 := match params.approval_settings with
    | none => base
    | some a => { base with approval := a }
  let s2 := match params.general_settings with
    | none => s1
    | some g => { s1 with general := g }
  alistSet params.fullPath s2 params.settingMap

theorem alistGet_alistSet_self (k : String) (v : α) (l : List (String × α)) :
    alistGet k (alistSet k v l) = some v := by
  induction l with
  | nil => simp [alistGet, alistSet]
  | cons hd tl ih =>
    by_cases h : hd.1 = k
    · simp [alistSet, alistGet, h]
    · simp [alistSet, alistGet, h, ih]

theorem alistGet_alistSet_ne (k q : String) (v : α) (l : List (String × α))
    (hq : q ≠ k) : alistGet q (alistSet k v l) = alistGet q l := by
  have hkq : ¬k = q := fun h => hq h.symm
  induction l with
  | nil => simp [alistGet, alistSet, hkq]
  | cons hd tl ih =>
    by_cases h : hd.1 = k
    · subst h
      simp [alistSet, alistGet, hkq]
    · by_cases h2 : hd.1 = q
      · subst h2
        simp [alistSet, alistGet, h, hq]
      · simp [alistSet, alistGet, h, h2, ih]

/-- C4 — recordSettings is an upsert keyed by project full path: the written
entry becomes the prior entry (the empty record when absent) with exactly the
provided sections overlaid, every other key is untouched, and no existing
entry is ever removed. -/
theorem C4_recordSettings_upsert (m : SettingsMap) (path : String)
    (a g : Option Fields) :
    alistGet path (recordSettings ⟨m, path, a, g⟩) =
      some { approval := a.getD ((alistGet path m).getD ProjectSettings.empty).approval,
             general := g.getD ((alistGet path m).getD ProjectSettings.empty).general }
    ∧ (∀ q, q ≠ path → alistGet q (recordSettings ⟨m, path, a, g⟩) = alistGet q m)
    ∧ (∀ q, (alistGet q m).isSome → (alistGet q (recordSettings ⟨m, path, a, g⟩)).isSome) := by
  refine ⟨?_, ?_, ?_⟩
  · rw [recordSettings]
    simp only [alistGet_alistSet_self]
    cases a <;> cases g <;> rfl
  · intro q hq
    rw [recordSettings]
    exact alistGet_alistSet_ne path q _ m hq
  · intro q hq
    by_cases h : q = path
    · subst h
      rw [recordSettings]
      simp [alistGet_alistSet_self]
    · rw [recordSettings]
      rw [alistGet_alistSet_ne path q _ m h]
      exact hq

/-- Witness for C4 at a concrete map: recording the approval section for a
path that already holds a general section keeps the general section. -/
theorem C4_recordSettings_upsert_witness :
    alistGet "g/p" (recordSettings ⟨[("g/p", ⟨[], [("Visibility", "private")]⟩)], "g/p",
        some [("ApprovalsBeforeMerge", "1")], none⟩) =
      some { approval := (some [("ApprovalsBeforeMerge", "1")]).getD
               ((alistGet "g/p" [("g/p", (⟨[], [("Visibility", "private")]⟩ : ProjectSettings))]).getD
                 ProjectSettings.empty).approval,
             general := (none : Option Fields).getD
               ((alistGet "g/p" [("g/p", (⟨[], [("Visibility", "private")]⟩ : ProjectSettings))]).getD
                 ProjectSettings.empty).general }
    ∧ (∀ q, q ≠ "g/p" → alistGet q (recordSettings ⟨[("g/p", ⟨[], [("Visibility", "private")]⟩)], "g/p",
        some [("ApprovalsBeforeMerge", "1")], none⟩) =
        alistGet q [("g/p", (⟨[], [("Visibility", "private")]⟩ : ProjectSettings))])
    ∧ (∀ q, (alistGet q [("g/p", (⟨[], [("Visibility", "private")]⟩ : ProjectSettings))]).isSome →
        (alistGet q (recordSettings ⟨[("g/p", ⟨[], [("Visibility", "private")]⟩)], "g/p",
          some [("ApprovalsBeforeMerge", "1")], none⟩)).isSome) :=
  C4_recordSettings_upsert [("g/p", ⟨[], [("Visibility", "private")]⟩)] "g/p"
    (some [("ApprovalsBeforeMerge", "1")]) none

/-! ## Group resolution (GetSubgroupID) and project discovery (GetProjects) -/

/-- A GitLab group as listed by ListSubgroups: its numeric ID and its path
segment, the two fields the source reads. -/
structure Group where
  id : Nat
  path : String
deriving DecidableEq, Repr

/-- The group_info argument passed to ListSubgroups in the source: either a
group name string (when group_ID == 0) or a stringified numeric ID. -/
inductive GroupInfo
  | name (s : String)
  | gid (n : Nat)
deriving DecidableEq, Repr

/-- The remote groups service consumed by group resolution. -/
structure GroupsEnv where
  listSubgroups : GroupInfo → Except Unit (List Group)

/-- Helper for splitSegs, walking the character list with the pending segment
accumulated in reverse. -/
def splitSegsAux : List Char → List Char → List String
  | [], acc => [String.mk acc.reverse]
  | c :: cs, acc =>
    if c = '/' then String.mk acc.reverse :: splitSegsAux cs []
    else splitSegsAux cs (c :: acc)

/-- strings.Split(path, "/") of the source, as a structurally recursive
function on the character list (so that the kernel can evaluate it on
concrete paths): splits at every separator, keeping empty segments, and
returns one empty segment for the empty string, exactly as Go does. -/
def splitSegs (s : String) : List String := splitSegsAux s.toList []

/-- strings.ContainsAny(s, "/") of the source. -/
def containsSlash (s : String) : Bool := s.toList.contains '/'

/-- The for-loop over listed subgroups in GetSubgroupID (lines 80-86): the
last group whose path matches the segment wins; the accumulator starts at the
zero value 0.  The source matches with the anchored regular expression
"^subpath$"; for the literal path segments resolution is called with, that is
string equality, which is how we embed it. -/
def matchSubgroupID (subpath : String) (subgroups : List Group) : Nat :=
  subgroups.foldl (fun acc g => if g.path = subpath then g.id else acc) 0

/-- The int component of a Go (int, error) pair: 0 in the error case, because
GetSubgroupID returns 0 alongside every error and its recursive call site
keeps only the int. -/
def exceptVal : Except Unit Nat → Nat
  | .ok n => n
  | .error _ => 0

/-- True exactly on the ok constructor. -/
def exOk : Except Unit α → Bool
  | .ok _ => true
  | .error _ => false

/-- GetSubgroupID, from src/pkg/gitlab/project_manager.go lines 56-95,
with an explicit fuel argument bounding the recursion depth (the source
recursion adds 1 to indent until it reaches path_count, so any fuel larger
than path_count - indent reproduces it exactly) and an explicit trace of the
ListSubgroups lookups issued.  Note the two quirks of the source: a failure
of the recursive call is discarded (subgroup_ID, _ = m.GetSubgroupID(...))
and an unmatched segment leaves subgroup_ID at 0 without raising an error. -/
def getSubgroupID (env : GroupsEnv) : Nat → String → Nat → Nat → Except Unit Nat × List GroupInfo
  | 0, _, _, _ => (.error (), [])
  | fuel+1, path, indent, group_ID =>
    let segs := splitSegs path
    let subpath := segs.getD indent ""
    let path_count := segs.length - 1
    let group_info := if group_ID = 0 then GroupInfo.name (segs.getD 0 "") else GroupInfo.gid group_ID
    match env.listSubgroups group_info with
    | .error _ => (.error (), [group_info])
    | .ok subgroups =>
      let subgroup_ID := matchSubgroupID subpath subgroups
      if indent ≠ path_count then
        let inner := getSubgroupID env fuel path (indent+1) subgroup_ID
        (.ok (exceptVal inner.1), group_info :: inner.2)
      else
        (.ok subgroup_ID, [group_info])

/-- The group_info value the first ListSubgroups call of an invocation of
GetSubgroupID uses (lines 63-70). -/
def groupInfoFor (path : String) (group_ID : Nat) : GroupInfo :=
  if group_ID = 0 then GroupInfo.name ((splitSegs path).getD 0 "") else GroupInfo.gid group_ID

/-- A protected-branch rule from the config (pkg/config, known from the README
table): branch name plus push and merge access levels (already resolved to
their numeric GitLab values by AccessLevel.Value in the source). -/
structure ProtectedBranch where
  name : String
  pushAccessLevel : Nat
  mergeAccessLevel : Nat
deriving DecidableEq, Repr

/-- The part of gitlab.EditProjectOptions the core reads itself: the
configured default branch.  The rest of the payload is only ever forwarded
verbatim to EditProject and never inspected. -/
structure EditProjectOptions where
  defaultBranch : Option String
deriving DecidableEq, Repr

/-- The config.Config fields the embedded core reads (group name, filter
lists, default-branch flag, protected-branch rules, and the presence of the
two settings sections). -/
structure Config where
  groupName : String
  projectWhitelist : List String
  projectBlacklist : List String
  createDefaultBranch : Bool
  protectedBranches : List ProtectedBranch
  projectSettings : Option EditProjectOptions
  approvalSettings : Option Unit
deriving DecidableEq, Repr

/-- A project as returned by the project-listing pages, with the three fields
GetProjects reads (ID, Name, PathWithNamespace). -/
structure RemoteProject where
  id : Nat
  pname : String
  pathWithNamespace : String
deriving DecidableEq, Repr

/-- One page response of ListGroupProjects: the items plus the TotalPages and
NextPage pagination headers the loop reads. -/
structure PageResp where
  items : List RemoteProject
  totalPages : Nat
  nextPage : Nat
deriving DecidableEq, Repr

/-- The remote services consumed by GetProjects: subgroup listing, direct
group lookup, and the project-listing pages (keyed by group ID and by the
requested Page value).  The source escapes the group name before GetGroup
(url.PathEscape plus a dot replacement) — an injective encoding of the name
that no claim depends on, so the environment is keyed by the raw name. -/
structure DiscoveryEnv extends GroupsEnv where
  getGroup : String → Except Unit Nat
  listGroupProjects : Nat → Nat → Except Unit PageResp

/-- A group-resolution lookup event: one GetGroup call or one ListSubgroups
call. -/
inductive ResEv
  | getGroup (gname : String)
  | listSubgroups (info : GroupInfo)
deriving DecidableEq, Repr

/-- The group-identification phase of GetProjects, from
src/pkg/gitlab/project_manager.go lines 104-124: nested paths go through
GetSubgroupID starting at indent 1 with parent id 0, plain names through a
single GetGroup lookup.  The fuel handed to getSubgroupID is the segment
count, which exceeds the recursion depth path_count - 1 of every reachable
call, so the embedding is exact here. -/
def resolveGroupID (env : DiscoveryEnv) (cfg : Config) : Except Unit Nat × List ResEv :=
  if containsSlash cfg.groupName then
    let r := getSubgroupID env.toGroupsEnv (splitSegs cfg.groupName).length cfg.groupName 1 0
    (r.1, r.2.map ResEv.listSubgroups)
  else
    match env.getGroup cfg.groupName with
    | .error _ => (.error (), [ResEv.getGroup cfg.groupName])
    | .ok gid => (.ok gid, [ResEv.getGroup cfg.groupName])

/-- A concrete groups environment for the resolution counterexamples: the
base group g has exactly one subgroup, a (id 5); listing subgroups of
anything else — in particular of group id 5 — fails. -/
def envC3 : GroupsEnv where
  listSubgroups info :=
    if info = GroupInfo.name "g" then .ok [⟨5, "a"⟩] else .error ()

/-- C3 is false on the code: (left) on the two-segment path g/x, whose second
segment x matches none of the listed subgroups of g, GetSubgroupID returns
success with group id 0 rather than an error; (right) on g/a/b the
subgroup-listing call at depth 2 fails, yet GetSubgroupID still returns
success with group id 0, because the recursive call's error is discarded. -/
theorem C3_getSubgroupID_counterexample :
    ((getSubgroupID envC3 2 "g/x" 1 0).1 = Except.ok 0
      ∧ envC3.listSubgroups (GroupInfo.name "g") = Except.ok [⟨5, "a"⟩]
      ∧ (splitSegs "g/x").getD 1 "" = "x"
      ∧ ∀ g ∈ [(⟨5, "a"⟩ : Group)], g.path ≠ "x")
    ∧ ((getSubgroupID envC3 3 "g/a/b" 1 0).1 = Except.ok 0
      ∧ envC3.listSubgroups (GroupInfo.gid 5) = Except.error ()) :=
  ⟨⟨rfl, rfl, by decide, by decide⟩, ⟨rfl, rfl⟩⟩

/-- C3 amended — GetSubgroupID returns an error exactly when the
ListSubgroups call made by its own (outermost) invocation fails: unmatched
segments and failures inside recursive calls never produce an error. -/
theorem C3_getSubgroupID_error_iff (env : GroupsEnv) (fuel : Nat) (path : String)
    (indent group_ID : Nat) (h : 1 ≤ fuel) :
    exOk (getSubgroupID env fuel path indent group_ID).1 =
      exOk (env.listSubgroups (groupInfoFor path group_ID)) := by
  obtain ⟨fuel, rfl⟩ : ∃ k, fuel = k + 1 := ⟨fuel - 1, by omega⟩
  rw [getSubgroupID, groupInfoFor]
  cases henv : env.listSubgroups
      (if group_ID = 0 then GroupInfo.name ((splitSegs path).getD 0 "") else GroupInfo.gid group_ID) with
  | error e => simp [henv, exOk]
  | ok subgroups =>
    simp only [henv]
    split <;> simp [exOk]

/-- Witness for the amended C3 at the concrete environment envC3. -/
theorem C3_getSubgroupID_error_iff_witness :
    exOk (getSubgroupID envC3 2 "g/x" 1 0).1 =
      exOk (envC3.listSubgroups (groupInfoFor "g/x" 0)) :=
  C3_getSubgroupID_error_iff envC3 2 "g/x" 1 0 (by decide)

theorem one_le_splitSegsAux_length (cs acc : List Char) :
    1 ≤ (splitSegsAux cs acc).length := by
  induction cs generalizing acc with
  | nil => simp [splitSegsAux]
  | cons c cs ih =>
    rw [splitSegsAux]
    split
    · simp
    · exact ih _

theorem one_le_splitSegs_length (s : String) : 1 ≤ (splitSegs s).length :=
  one_le_splitSegsAux_length s.toList []

/-- When every subgroup-listing call succeeds, an invocation of GetSubgroupID
at a given indent issues exactly one listing per remaining segment:
segments.length - indent lookups in total. -/
theorem getSubgroupID_trace_length (env : GroupsEnv) (path : String)
    (henv : ∀ info, exOk (env.listSubgroups info) = true) :
    ∀ fuel indent group_ID, indent ≤ (splitSegs path).length - 1 →
      (splitSegs path).length - 1 - indent < fuel →
      (getSubgroupID env fuel path indent group_ID).2.length =
        (splitSegs path).length - indent := by
  intro fuel
  induction fuel with
  | zero => intro indent group_ID h1 h2; omega
  | succ fuel ih =>
    intro indent group_ID h1 h2
    have hlen := one_le_splitSegs_length path
    rw [getSubgroupID]
    have hok := henv (if group_ID = 0 then GroupInfo.name ((splitSegs path).getD 0 "")
      else GroupInfo.gid group_ID)
    cases henv2 : env.listSubgroups (if group_ID = 0 then GroupInfo.name ((splitSegs path).getD 0 "")
        else GroupInfo.gid group_ID) with
    | error e => rw [henv2] at hok; simp [exOk] at hok
    | ok subgroups =>
      simp only [henv2]
      by_cases hi : indent = (splitSegs path).length - 1
      · simp only [hi, ne_eq, not_true_eq_false, if_neg, ite_false]
        simp only [List.length_cons, List.length_nil]
        omega
      · have hind : indent < (splitSegs path).length - 1 := by omega
        simp only [ne_eq, hi, not_false_eq_true, if_pos, ite_true, List.length_cons]
        rw [ih (indent + 1) _ (by omega) (by omega)]
        omega

/-- A concrete discovery environment in which every remote lookup succeeds,
for the C8 counterexample: group a has the single subgroup b (id 7). -/
def envC8 : DiscoveryEnv where
  listSubgroups info := if info = GroupInfo.name "a" then .ok [⟨7, "b"⟩] else .ok []
  getGroup _ := .ok 1
  listGroupProjects _ _ := .ok ⟨[], 1, 0⟩

/-- A config whose group path a/b has two segments, for the C8
counterexample. -/
def cfgC8 : Config := ⟨"a/b", [], [], false, [], none, none⟩

/-- C8 is false on the code: resolving the two-segment path a/b issues one
remote resolution lookup, not two — the base-group lookup is folded into the
first subgroup listing. -/
theorem C8_lookup_count_counterexample :
    (resolveGroupID envC8 cfgC8).2.length = 1
    ∧ (splitSegs cfgC8.groupName).length = 2
    ∧ (resolveGroupID envC8 cfgC8).2.length ≠ (splitSegs cfgC8.groupName).length :=
  ⟨rfl, rfl, by decide⟩

/-- C8 amended — group resolution issues exactly one lookup for a
single-segment group name, and exactly n - 1 subgroup-listing lookups
(all made by the GetSubgroupID walk, with the base lookup folded into the
first of them) for a nested name of n segments when every listing call
succeeds. -/
theorem C8_resolution_lookup_count (env : DiscoveryEnv) (cfg : Config)
    (henv : ∀ info, exOk (env.toGroupsEnv.listSubgroups info) = true) :
    (containsSlash cfg.groupName = false → (resolveGroupID env cfg).2.length = 1)
    ∧ (containsSlash cfg.groupName = true → 2 ≤ (splitSegs cfg.groupName).length →
        (resolveGroupID env cfg).2.length = (splitSegs cfg.groupName).length - 1) := by
  constructor
  · intro hns
    rw [resolveGroupID, hns]
    simp only [Bool.false_eq_true, if_false]
    cases env.getGroup cfg.groupName <;> rfl
  · intro hs hlen
    rw [resolveGroupID, hs]
    simp only [if_true, List.length_map]
    rw [getSubgroupID_trace_length env.toGroupsEnv cfg.groupName henv
      (splitSegs cfg.groupName).length 1 0 (by omega) (by omega)]

/-- Witness for the amended C8 on the all-successful environment envC8: the
two-segment path of cfgC8 issues exactly one lookup. -/
theorem C8_resolution_lookup_count_witness :
    (resolveGroupID envC8 cfgC8).2.length = (splitSegs cfgC8.groupName).length - 1 :=
  (C8_resolution_lookup_count envC8 cfgC8
      (by intro info
          show exOk (if info = GroupInfo.name "a" then Except.ok [Group.mk 7 "b"]
            else Except.ok []) = true
          split <;> rfl)).2 (by decide) (by decide)

/-! ## Project discovery: filtering and pagination -/

/-- Modelled from the spec: stringslice.Contains from
pkg/internal/stringslice, which is not under src/; per the spec the filter is
exact string membership of the path in the list. -/
def stringsliceContains (s : String) (l : List String) : Bool := decide (s ∈ l)

/-- The whitelist/blacklist filter applied per project in GetProjects (lines
133-141): skip when the whitelist is non-empty and does not contain the path,
then skip when the blacklist contains the path. -/
def keepProject (cfg : Config) (path : String) : Bool :=
  !(decide (0 < cfg.projectWhitelist.length) && !stringsliceContains path cfg.projectWhitelist)
    && !stringsliceContains path cfg.projectBlacklist

/-- The Project value GetProjects builds for each kept repo (lines 143-147):
ID, Name, FullPath. -/
structure Project where
  id : Nat
  pname : String
  fullPath : String
deriving DecidableEq, Repr

def toProject (p : RemoteProject) : Project := ⟨p.id, p.pname, p.pathWithNamespace⟩

/-- One iteration body of the projects loop: the kept projects of one page,
in order. -/
def filterPage (cfg : Config) (items : List RemoteProject) : List Project :=
  (items.filter (fun p => keepProject cfg p.pathWithNamespace)).map toProject

/-- The pagination loop of GetProjects, from src/pkg/gitlab/project_manager.go
lines 127-157, with the package-level listGroupProjectOps.Page threaded as the
explicit page argument and returned alongside the repos (the source never
resets it), the requested pages returned as a trace, and fuel bounding the
iteration count (none = the fuel ran out before the loop exited).  A failed
page fetch aborts with an empty project list, exactly as the source. -/
def getProjectsLoop (env : DiscoveryEnv) (cfg : Config) (groupID : Nat) :
    Nat → Nat → Option (Except Unit (List Project × Nat) × List Nat)
  | 0, _ => none
  | fuel+1, page =>
    match env.listGroupProjects groupID page with
    | .error _ => some (.error (), [page])
    | .ok r =>
      if r.totalPages ≤ page ∨ r.totalPages = 1 then
        some (.ok (filterPage cfg r.items, page), [page])
      else
        match getProjectsLoop env cfg groupID fuel r.nextPage with
        | none => none
        | some (.error e, pgs) => some (.error e, page :: pgs)
        | some (.ok (rest, lastPage), pgs) =>
          some (.ok (filterPage cfg r.items ++ rest, lastPage), page :: pgs)

/-- The items the remote listing returns for one requested page. -/
def itemsAt (env : DiscoveryEnv) (groupID pg : Nat) : List RemoteProject :=
  match env.listGroupProjects groupID pg with
  | .ok r => r.items
  | .error _ => []

/-- The items of a sequence of requested pages, concatenated in order. -/
def pagesItems (env : DiscoveryEnv) (groupID : Nat) (pgs : List Nat) : List RemoteProject :=
  pgs.foldr (fun pg acc => itemsAt env groupID pg ++ acc) []

theorem keepProject_iff (cfg : Config) (path : String) :
    keepProject cfg path = true ↔
      ((cfg.projectWhitelist = [] ∨ path ∈ cfg.projectWhitelist)
        ∧ path ∉ cfg.projectBlacklist) := by
  rcases hwl : cfg.projectWhitelist with _ | ⟨w, ws⟩ <;>
    by_cases hbl : path ∈ cfg.projectBlacklist <;>
      by_cases hmem : path ∈ cfg.projectWhitelist <;>
        simp_all [keepProject, stringsliceContains]

theorem getProjectsLoop_repos (env : DiscoveryEnv) (cfg : Config) (groupID : Nat) :
    ∀ fuel page repos lastPage pgs,
      getProjectsLoop env cfg groupID fuel page = some (.ok (repos, lastPage), pgs) →
      repos = ((pagesItems env groupID pgs).filter
          (fun rp => keepProject cfg rp.pathWithNamespace)).map toProject := by
  intro fuel
  induction fuel with
  | zero => intro page repos lastPage pgs h; exact absurd h (by rw [getProjectsLoop]; simp)
  | succ fuel ih =>
    intro page repos lastPage pgs h
    rw [getProjectsLoop] at h
    cases henv : env.listGroupProjects groupID page with
    | error e => rw [henv] at h; simp at h
    | ok r =>
      rw [henv] at h
      dsimp only at h
      by_cases hbreak : r.totalPages ≤ page ∨ r.totalPages = 1
      · rw [if_pos hbreak] at h
        obtain ⟨⟨h1, h2⟩, h3⟩ : (filterPage cfg r.items = repos ∧ page = lastPage) ∧ [page] = pgs := by
          simpa using h
        subst h1; subst h3
        simp [pagesItems, itemsAt, henv, filterPage]
      · rw [if_neg hbreak] at h
        cases hrec : getProjectsLoop env cfg groupID fuel r.nextPage with
        | none => rw [hrec] at h; simp at h
        | some res =>
          obtain ⟨er, pgs'⟩ := res
          cases er with
          | error e => rw [hrec] at h; simp at h
          | ok v =>
            obtain ⟨rest, lp⟩ := v
            rw [hrec] at h
            obtain ⟨⟨h1, h2⟩, h3⟩ : (filterPage cfg r.items ++ rest = repos ∧ lp = lastPage)
                ∧ page :: pgs' = pgs := by simpa using h
            subst h1; subst h3
            rw [ih r.nextPage rest lp pgs' hrec]
            simp [pagesItems, itemsAt, henv, filterPage, List.filter_append, List.map_append]

/-- C2 — every project kept by GetProjects is the image of a remote project
of a fetched page, and a remote project of a fetched page appears in the
output exactly when the whitelist is empty or contains its full namespaced
path, and the blacklist does not contain it. -/
theorem C2_getProjects_filter (env : DiscoveryEnv) (cfg : Config)
    (groupID fuel page : Nat) (repos : List Project) (lastPage : Nat) (pgs : List Nat)
    (h : getProjectsLoop env cfg groupID fuel page = some (.ok (repos, lastPage), pgs)) :
    repos = ((pagesItems env groupID pgs).filter
        (fun rp => keepProject cfg rp.pathWithNamespace)).map toProject
    ∧ ∀ q, q ∈ repos ↔ ∃ rp, rp ∈ pagesItems env groupID pgs
        ∧ ((cfg.projectWhitelist = [] ∨ rp.pathWithNamespace ∈ cfg.projectWhitelist)
            ∧ rp.pathWithNamespace ∉ cfg.projectBlacklist)
        ∧ toProject rp = q := by
  have heq := getProjectsLoop_repos env cfg groupID fuel page repos lastPage pgs h
  refine ⟨heq, fun q => ?_⟩
  subst heq
  simp only [List.mem_map, List.mem_filter, keepProject_iff]
  constructor
  · rintro ⟨rp, ⟨hmem, hkeep⟩, hq⟩
    exact ⟨rp, hmem, hkeep, hq⟩
  · rintro ⟨rp, hmem, hkeep, hq⟩
    exact ⟨rp, ⟨hmem, hkeep⟩, hq⟩

/-- A concrete one-page environment for the C2 witness: the single page holds
two projects, one of which is blacklisted by cfgC2. -/
def envC2 : DiscoveryEnv where
  listSubgroups _ := .error ()
  getGroup _ := .ok 1
  listGroupProjects _ _ := .ok ⟨[⟨10, "a", "grp/a"⟩, ⟨11, "b", "grp/b"⟩], 1, 0⟩

def cfgC2 : Config := ⟨"grp", [], ["grp/b"], false, [], none, none⟩

/-- Witness for C2: on envC2 the loop keeps grp/a and drops the blacklisted
grp/b. -/
theorem C2_getProjects_filter_witness :
    ([(⟨10, "a", "grp/a"⟩ : Project)] = ((pagesItems envC2 1 [0]).filter
        (fun rp => keepProject cfgC2 rp.pathWithNamespace)).map toProject)
    ∧ ∀ q, q ∈ [(⟨10, "a", "grp/a"⟩ : Project)] ↔ ∃ rp, rp ∈ pagesItems envC2 1 [0]
        ∧ ((cfgC2.projectWhitelist = [] ∨ rp.pathWithNamespace ∈ cfgC2.projectWhitelist)
            ∧ rp.pathWithNamespace ∉ cfgC2.projectBlacklist)
        ∧ toProject rp = q :=
  C2_getProjects_filter envC2 cfgC2 1 3 0 [⟨10, "a", "grp/a"⟩] 0 [0] rfl

/-- C9 — the pagination state of GetProjects (the Page field of the
package-level shared listGroupProjectOps, threaded here explicitly): each run
issues its first request at the caller's current Page value and leaves Page
equal to the last page it requested; nothing ever resets it, so a second call
resumes at the page where the previous call stopped rather than at the first
page. -/
theorem C9_pagination_state (env : DiscoveryEnv) (cfg : Config) (groupID : Nat) :
    ∀ fuel page res pgs, getProjectsLoop env cfg groupID fuel page = some (res, pgs) →
      pgs.head? = some page
      ∧ ∀ repos lastPage, res = Except.ok (repos, lastPage) → pgs.getLast? = some lastPage := by
  intro fuel
  induction fuel with
  | zero => intro page res pgs h; rw [getProjectsLoop] at h; simp at h
  | succ fuel ih =>
    intro page res pgs h
    rw [getProjectsLoop] at h
    cases henv : env.listGroupProjects groupID page with
    | error e =>
      rw [henv] at h
      dsimp only at h
      obtain ⟨h1, h2⟩ : Except.error () = res ∧ [page] = pgs := by simpa using h
      subst h1; subst h2
      refine ⟨rfl, fun repos lastPage hc => ?_⟩
      cases hc
    | ok r =>
      rw [henv] at h
      dsimp only at h
      by_cases hbreak : r.totalPages ≤ page ∨ r.totalPages = 1
      · rw [if_pos hbreak] at h
        obtain ⟨h1, h2⟩ : Except.ok (filterPage cfg r.items, page) = res ∧ [page] = pgs := by
          simpa using h
        subst h1; subst h2
        refine ⟨rfl, fun repos lastPage hc => ?_⟩
        obtain ⟨-, h3⟩ : filterPage cfg r.items = repos ∧ page = lastPage := by
          simpa using hc
        subst h3
        rfl
      · rw [if_neg hbreak] at h
        cases hrec : getProjectsLoop env cfg groupID fuel r.nextPage with
        | none => rw [hrec] at h; simp at h
        | some res' =>
          obtain ⟨er, pgs'⟩ := res'
          have hih := ih r.nextPage er pgs' hrec
          obtain ⟨a, t, rfl⟩ : ∃ a t, pgs' = a :: t := by
            rcases pgs' with _ | ⟨a, t⟩
            · simp at hih
            · exact ⟨a, t, rfl⟩
          cases er with
          | error e =>
            rw [hrec] at h
            obtain ⟨h1, h2⟩ : Except.error e = res ∧ page :: a :: t = pgs := by simpa using h
            subst h1; subst h2
            refine ⟨rfl, fun repos lastPage hc => ?_⟩
            cases hc
          | ok v =>
            obtain ⟨rest, lp⟩ := v
            rw [hrec] at h
            obtain ⟨h1, h2⟩ : Except.ok (filterPage cfg r.items ++ rest, lp) = res
                ∧ page :: a :: t = pgs := by simpa using h
            subst h1; subst h2
            refine ⟨rfl, fun repos lastPage hc => ?_⟩
            obtain ⟨-, h3⟩ : filterPage cfg r.items ++ rest = repos ∧ lp = lastPage := by
              simpa using hc
            subst h3
            rw [List.getLast?_cons_cons]
            exact hih.2 rest lp rfl

/-- A two-page environment for the C9 witness: requesting with Page 0 serves
page 1 of 2 with NextPage 2; requesting Page 2 serves the final page. -/
def envC9 : DiscoveryEnv where
  listSubgroups _ := .error ()
  getGroup _ := .ok 1
  listGroupProjects _ pg :=
    if pg ≤ 1 then .ok ⟨[⟨1, "p1", "g/p1"⟩], 2, 2⟩ else .ok ⟨[⟨2, "p2", "g/p2"⟩], 2, 0⟩

def cfgC9 : Config := ⟨"g", [], [], false, [], none, none⟩

/-- Witness for C9: on the two-page environment, a first run from Page 0
requests pages 0 and 2 and leaves Page at 2; a second run starting from the
leftover value 2 requests only page 2 — it resumes where the first stopped
and never re-reads the first page. -/
theorem C9_pagination_state_witness :
    getProjectsLoop envC9 cfgC9 1 5 0 =
      some (.ok ([⟨1, "p1", "g/p1"⟩, ⟨2, "p2", "g/p2"⟩], 2), [0, 2])
    ∧ getProjectsLoop envC9 cfgC9 1 5 2 = some (.ok ([⟨2, "p2", "g/p2"⟩], 2), [2])
    ∧ ([0, 2] : List Nat).head? = some 0
    ∧ ([0, 2] : List Nat).getLast? = some 2 := by
  refine ⟨rfl, rfl, ?_, ?_⟩
  · exact (C9_pagination_state envC9 cfgC9 1 5 0
      (Except.ok ([⟨1, "p1", "g/p1"⟩, ⟨2, "p2", "g/p2"⟩], 2)) [0, 2] rfl).1
  · exact (C9_pagination_state envC9 cfgC9 1 5 0
      (Except.ok ([⟨1, "p1", "g/p1"⟩, ⟨2, "p2", "g/p2"⟩], 2)) [0, 2] rfl).2
      [⟨1, "p1", "g/p1"⟩, ⟨2, "p2", "g/p2"⟩] 2 rfl

/-! ## Change reporting (GenerateChangeLogReport) -/

/-- One entry of the difflog produced by diff.Diff: the path from the map key
through the struct fields to the changed leaf, with the before and after
values. -/
structure DiffEntry where
  path : List String
  fromVal : String
  toVal : String
deriving DecidableEq, Repr

/-- The field-level diff of two equally-shaped settings structs.  The r3labs
diff library used at line 402 walks the fields of the shared struct type
reflectively, so both sides always present the same field sequence and the
walk is positional; each changed leaf yields one UPDATE entry whose path is
[project, section, field]. -/
def diffFields (proj sec : String) : Fields → Fields → List DiffEntry
  | (k, vb) :: bs, (_, va) :: as_ =>
    (if vb ≠ va then [⟨[proj, sec, k], vb, va⟩] else []) ++ diffFields proj sec bs as_
  | _, _ => []

/-- The diff of one project entry: its Approval fields then its General
fields, in struct declaration order. -/
def diffProject (proj : String) (b a : ProjectSettings) : List DiffEntry :=
  diffFields proj "Approval" b.approval a.approval
    ++ diffFields proj "General" b.general a.general

/-- The diff of the two snapshot maps (diff.Diff at line 402): entries of the
before map are compared to the entry at the same key of the after map. -/
def diffSnapshots (b a : SettingsMap) : List DiffEntry :=
  b.foldr (fun pr acc =>
    match alistGet pr.1 a with
    | some sa => diffProject pr.1 pr.2 sa ++ acc
    | none => acc) []

def toSnakeAux : List Char → List Char
  | [] => []
  | c :: rest => (if c.isUpper then ['_', c.toLower] else [c]) ++ toSnakeAux rest

/-- strcase.ToSnake for the CamelCase field identifiers the source feeds it:
lowercase the first character and prefix every later uppercase character with
an underscore while lowercasing it. -/
def toSnake (s : String) : String :=
  match s.toList with
  | [] => ""
  | c :: rest => String.mk (c.toLower :: toSnakeAux rest)

/-- The From/To cell the report stores per row (lines 420-422). -/
structure ChangeCell where
  fromVal : String
  toVal : String
deriving DecidableEq, Repr

/-- The nested changelog map of GenerateChangeLogReport: project path to row
name to cell. -/
abbrev Changelog := List (String × List (String × ChangeCell))

/-- The difflog-to-changelog conversion of GenerateChangeLogReport, from
src/pkg/gitlab/project_manager.go lines 408-423: make the project entry if
absent, then unconditionally overwrite the row keyed by the snake-cased LAST
path segment of the change with a fresh From/To cell. -/
def buildChangelog (difflog : List DiffEntry) : Changelog :=
  difflog.foldl (fun acc v =>
    let proj := v.path.headD ""
    let row := toSnake (v.path.getLastD "")
    alistSet proj (alistSet row ⟨v.fromVal, v.toVal⟩ ((alistGet proj acc).getD [])) acc) []

theorem mem_alistSet (k : String) (v : α) (l : List (String × α)) :
    ∀ pr ∈ alistSet k v l, pr = (k, v) ∨ pr ∈ l := by
  induction l with
  | nil => simp [alistSet]
  | cons hd tl ih =>
    intro pr hpr
    rw [alistSet] at hpr
    by_cases h : hd.1 = k
    · rw [if_pos h] at hpr
      rcases List.mem_cons.mp hpr with h1 | h1
      · exact Or.inl h1
      · exact Or.inr (List.mem_cons_of_mem _ h1)
    · rw [if_neg h] at hpr
      rcases List.mem_cons.mp hpr with h1 | h1
      · exact Or.inr (by simp [h1])
      · rcases ih pr h1 with h2 | h2
        · exact Or.inl h2
        · exact Or.inr (List.mem_cons_of_mem _ h2)

theorem mem_keys_alistSet (k : String) (v : α) (l : List (String × α)) :
    ∀ q ∈ (alistSet k v l).map Prod.fst, q = k ∨ q ∈ l.map Prod.fst := by
  intro q hq
  rw [List.mem_map] at hq
  obtain ⟨pr, hpr, rfl⟩ := hq
  rcases mem_alistSet k v l pr hpr with h | h
  · exact Or.inl (by rw [h])
  · exact Or.inr (List.mem_map_of_mem _ h)

theorem alistSet_keys_nodup (k : String) (v : α) (l : List (String × α))
    (h : (l.map Prod.fst).Nodup) : ((alistSet k v l).map Prod.fst).Nodup := by
  induction l with
  | nil => simp [alistSet]
  | cons hd tl ih =>
    simp only [List.map_cons, List.nodup_cons] at h
    rw [alistSet]
    by_cases hk : hd.1 = k
    · subst hk
      simpa using h
    · rw [if_neg hk]
      simp only [List.map_cons, List.nodup_cons]
      refine ⟨fun hmem => ?_, ih h.2⟩
      rcases mem_keys_alistSet k v tl hd.1 hmem with h1 | h1
      · exact hk h1
      · exact h.1 h1

theorem alistGet_mem (k : String) (l : List (String × α)) (v : α)
    (h : alistGet k l = some v) : (k, v) ∈ l := by
  induction l with
  | nil => simp [alistGet] at h
  | cons hd tl ih =>
    rw [alistGet] at h
    by_cases hk : hd.1 = k
    · rw [if_pos hk] at h
      injection h with h
      subst h; subst hk
      exact List.mem_cons_self _ _
    · rw [if_neg hk] at h
      exact List.mem_cons_of_mem _ (ih h)

/-- The shape invariant of the changelog map: no duplicate project keys, and
no duplicate row keys within a project. -/
def ChangelogWF (c : Changelog) : Prop :=
  ((c.map Prod.fst).Nodup) ∧ ∀ pr ∈ c, ((pr.2.map Prod.fst).Nodup)

theorem buildChangelog_step_wf (acc : Changelog) (v : DiffEntry) (h : ChangelogWF acc) :
    ChangelogWF (alistSet (v.path.headD "") (alistSet (toSnake (v.path.getLastD ""))
      ⟨v.fromVal, v.toVal⟩ ((alistGet (v.path.headD "") acc).getD [])) acc) := by
  obtain ⟨h1, h2⟩ := h
  constructor
  · exact alistSet_keys_nodup _ _ _ h1
  · intro pr hpr
    rcases mem_alistSet _ _ _ pr hpr with hc | hc
    · subst hc
      refine alistSet_keys_nodup _ _ _ ?_
      cases hget : alistGet (v.path.headD "") acc with
      | none => simp
      | some row =>
        simpa using h2 _ (alistGet_mem _ _ _ hget)
    · exact h2 pr hc

theorem buildChangelog_wf_aux (difflog : List DiffEntry) :
    ∀ acc, ChangelogWF acc →
      ChangelogWF (difflog.foldl (fun acc v =>
        alistSet (v.path.headD "") (alistSet (toSnake (v.path.getLastD ""))
          ⟨v.fromVal, v.toVal⟩ ((alistGet (v.path.headD "") acc).getD [])) acc) acc) := by
  induction difflog with
  | nil => intro acc h; exact h
  | cons v rest ih =>
    intro acc h
    exact ih _ (buildChangelog_step_wf acc v h)

/-- The before snapshot of the C6 counterexample: repoA changed its
ApprovalsBeforeMerge leaf in BOTH the approval section and the general
section (both gitlab.ProjectApprovals and gitlab.Project really carry a field
of this name). -/
def beforeC6 : SettingsMap :=
  [("repoA", ⟨[("ApprovalsBeforeMerge", "1")], [("ApprovalsBeforeMerge", "2")]⟩)]

def afterC6 : SettingsMap :=
  [("repoA", ⟨[("ApprovalsBeforeMerge", "3")], [("ApprovalsBeforeMerge", "4")]⟩)]

/-- C6 is false on the code: the diff of beforeC6/afterC6 holds two changed
leaf fields for repoA, but the rendered changelog holds a single row, because
rows are keyed only by the snake-cased final path segment and the second
change overwrites the first. -/
theorem C6_changelog_counterexample :
    (diffSnapshots beforeC6 afterC6).length = 2
    ∧ buildChangelog (diffSnapshots beforeC6 afterC6) =
        [("repoA", [("approvals_before_merge", ⟨"2", "4"⟩)])]
    ∧ ¬ (buildChangelog (diffSnapshots beforeC6 afterC6)).length = 2 :=
  ⟨rfl, rfl, by decide⟩

/-- C6 amended — rows are keyed by project and by the snake-cased final path
segment of the changed field, so the report holds AT MOST one row per such
key, later changes overwriting earlier ones that collide; when the changed
leaves of a project all have distinct snake-cased names, this is exactly one
row per changed leaf, and in particular the before/after pair in which only
repoA's general visibility changed from private to public renders exactly the
single entry (repoA, visibility, private, public). -/
theorem C6_changelog_amended :
    buildChangelog (diffSnapshots [("repoA", ⟨[], [("Visibility", "private")]⟩)]
        [("repoA", ⟨[], [("Visibility", "public")]⟩)]) =
      [("repoA", [("visibility", ⟨"private", "public"⟩)])]
    ∧ ∀ difflog : List DiffEntry, ChangelogWF (buildChangelog difflog) := by
  constructor
  · rfl
  · intro difflog
    rw [buildChangelog]
    exact buildChangelog_wf_aux difflog [] ⟨List.nodup_nil, by simp⟩

/-! ## Branch and settings reconciliation, and the sync command loop -/

/-- A remote call event, one per client call the reconciler issues. -/
inductive Ev
  | getProject (pid : Nat)
  | editProject (pid : Nat)
  | getApproval (pid : Nat)
  | changeApproval (pid : Nat)
  | getBranch (pid : Nat) (branch : String)
  | createBranch (pid : Nat) (branch : String)
  | unprotect (pid : Nat) (branch : String)
  | protect (pid : Nat) (branch : String) (push mrg : Nat)
deriving DecidableEq, Repr

/-- Whether a call mutates remote state: EditProject,
ChangeApprovalConfiguration, CreateBranch, UnprotectRepositoryBranches and
ProtectRepositoryBranches do; the three reads do not. -/
def Ev.mutating : Ev → Bool
  | editProject _ => true
  | changeApproval _ => true
  | createBranch _ _ => true
  | unprotect _ _ => true
  | protect _ _ _ _ => true
  | getProject _ => false
  | getApproval _ => false
  | getBranch _ _ => false

/-- The remote client consumed by reconciliation, as response functions.  For
the calls whose error branch reads resp.StatusCode, an error carries the
response status code — this builds in the precondition (claim C10) that the
client returns a non-nil response alongside every error; the nil-response
case is modelled separately below for C10. -/
structure SyncEnv where
  getProject : Nat → Except Unit Fields
  editErr : Nat → Bool
  getApproval : Nat → Except Unit Fields
  changeApprovalErr : Nat → Bool
  getBranchErr : Nat → String → Option Nat
  createErr : Nat → String → Bool
  unprotectErr : Nat → String → Option Nat
  protectErr : Nat → String → Bool

/-- The two snapshot maps of ProjectManager. -/
structure MState where
  original : SettingsMap
  updated : SettingsMap
deriving DecidableEq, Repr

/-- The skip guard of ensureDefaultBranch (lines 200-204): no work unless
creation is enabled and a default branch other than master is configured.
(With creation enabled and a nil ProjectSettings the source would dereference
a nil pointer at line 201; that combination is outside every claim, and the
model takes the skip branch there.) -/
def defaultBranchGuard (cfg : Config) : Option String :=
  if !cfg.createDefaultBranch then none
  else match cfg.projectSettings with
    | none => none
    | some epo => match epo.defaultBranch with
      | none => none
      | some b => if b = "master" then none else some b

/-- ensureDefaultBranch, from src/pkg/gitlab/project_manager.go lines
199-232: look the branch up; on success it already exists; an error with a
status other than 404 is fatal; on 404 create it — unless dry-run, which
skips only the CreateBranch call. -/
def ensureDefaultBranch (env : SyncEnv) (cfg : Config) (p : Project) (dryrun : Bool) :
    Except Unit Unit × List Ev :=
  match defaultBranchGuard cfg with
  | none => (.ok (), [])
  | some b =>
    match env.getBranchErr p.id b with
    | none => (.ok (), [Ev.getBranch p.id b])
    | some status =>
      if status ≠ 404 then (.error (), [Ev.getBranch p.id b])
      else if dryrun then (.ok (), [Ev.getBranch p.id b])
      else if env.createErr p.id b then (.error (), [Ev.getBranch p.id b, Ev.createBranch p.id b])
      else (.ok (), [Ev.getBranch p.id b, Ev.createBranch p.id b])

/-- The per-rule protected-branch loop of EnsureBranchesAndProtection (lines
172-194): in dry-run skip both calls and continue; otherwise unprotect
(tolerating an error whose response status is 404), then protect, returning
the first failure immediately.  unprotectFatal is the abort condition of the
unprotect call (line 180): an error whose response status is not 404. -/
def unprotectFatal (r : Option Nat) : Bool :=
  match r with
  | some status => status != 404
  | none => false

def protectLoop (env : SyncEnv) (pid : Nat) (dryrun : Bool) :
    List ProtectedBranch → Except Unit Unit × List Ev
  | [] => (.ok (), [])
  | b :: rest =>
    if dryrun then protectLoop env pid dryrun rest
    else if unprotectFatal (env.unprotectErr pid b.name) then
      (.error (), [Ev.unprotect pid b.name])
    else if env.protectErr pid b.name then
      (.error (), [Ev.unprotect pid b.name,
        Ev.protect pid b.name b.pushAccessLevel b.mergeAccessLevel])
    else
      let r := protectLoop env pid dryrun rest
      (r.1, Ev.unprotect pid b.name
        :: Ev.protect pid b.name b.pushAccessLevel b.mergeAccessLevel :: r.2)

/-- EnsureBranchesAndProtection, from lines 167-197: the default-branch step
first (its failure is returned at once), then the protection loop. -/
def ensureBranchesAndProtection (env : SyncEnv) (cfg : Config) (p : Project) (dryrun : Bool) :
    Except Unit Unit × List Ev :=
  match ensureDefaultBranch env cfg p dryrun with
  | (.error e, t) => (.error e, t)
  | (.ok _, t) =>
    let r := protectLoop env p.id dryrun cfg.protectedBranches
    (r.1, t ++ r.2)

/-- UpdateProjectSettings, from lines 256-317: require the config section,
fetch and record the before snapshot (general section), submit EditProject
unless dry-run, then fetch and record the after snapshot. -/
def updateProjectSettings (env : SyncEnv) (cfg : Config) (p : Project) (dryrun : Bool)
    (st : MState) : Except Unit Unit × MState × List Ev :=
  match cfg.projectSettings with
  | none => (.error (), st, [])
  | some _ =>
    match env.getProject p.id with
    | .error _ => (.error (), st, [Ev.getProject p.id])
    | .ok ps =>
      let st1 : MState :=
        { st with original := recordSettings ⟨st.original, p.fullPath, none, some ps⟩ }
      if dryrun then
        match env.getProject p.id with
        | .error _ => (.error (), st1, [Ev.getProject p.id, Ev.getProject p.id])
        | .ok ps2 =>
          (.ok (),
            { st1 with updated := recordSettings ⟨st1.updated, p.fullPath, none, some ps2⟩ },
            [Ev.getProject p.id, Ev.getProject p.id])
      else if env.editErr p.id then
        (.error (), st1, [Ev.getProject p.id, Ev.editProject p.id])
      else
        match env.getProject p.id with
        | .error _ =>
          (.error (), st1, [Ev.getProject p.id, Ev.editProject p.id, Ev.getProject p.id])
        | .ok ps2 =>
          (.ok (),
            { st1 with updated := recordSettings ⟨st1.updated, p.fullPath, none, some ps2⟩ },
            [Ev.getProject p.id, Ev.editProject p.id, Ev.getProject p.id])

/-- UpdateProjectApprovalSettings, from lines 337-397: same three-phase shape
for the approval section, with ChangeApprovalConfiguration as the mutating
call. -/
def updateProjectApprovalSettings (env : SyncEnv) (cfg : Config) (p : Project) (dryrun : Bool)
    (st : MState) : Except Unit Unit × MState × List Ev :=
  match cfg.approvalSettings with
  | none => (.error (), st, [])
  | some _ =>
    match env.getApproval p.id with
    | .error _ => (.error (), st, [Ev.getApproval p.id])
    | .ok aps =>
      let st1 : MState :=
        { st with original := recordSettings ⟨st.original, p.fullPath, some aps, none⟩ }
      if dryrun then
        match env.getApproval p.id with
        | .error _ => (.error (), st1, [Ev.getApproval p.id, Ev.getApproval p.id])
        | .ok aps2 =>
          (.ok (),
            { st1 with updated := recordSettings ⟨st1.updated, p.fullPath, some aps2, none⟩ },
            [Ev.getApproval p.id, Ev.getApproval p.id])
      else if env.changeApprovalErr p.id then
        (.error (), st1, [Ev.getApproval p.id, Ev.changeApproval p.id])
      else
        match env.getApproval p.id with
        | .error _ =>
          (.error (), st1, [Ev.getApproval p.id, Ev.changeApproval p.id, Ev.getApproval p.id])
        | .ok aps2 =>
          (.ok (),
            { st1 with updated := recordSettings ⟨st1.updated, p.fullPath, some aps2, none⟩ },
            [Ev.getApproval p.id, Ev.changeApproval p.id, Ev.getApproval p.id])

/-- One logged per-project error of the sync run loop in cmd/sync.go. -/
inductive LogErr
  | branches (path : String)
  | settings (path : String)
  | approval (path : String)
deriving DecidableEq, Repr

def logOf (r : Except Unit Unit) (e : LogErr) : List LogErr :=
  match r with
  | .ok _ => []
  | .error _ => [e]

/-- The per-project body of the sync loop (src/cmd/sync.go lines 40-57):
branch reconciliation, then settings, then approvals, each error logged with
the project path and never stopping the remaining steps. -/
def syncOne (env : SyncEnv) (cfg : Config) (p : Project) (dryrun : Bool) (st : MState) :
    MState × List Ev × List LogErr :=
  let rb := ensureBranchesAndProtection env cfg p dryrun
  let rs := updateProjectSettings env cfg p dryrun st
  let ra := updateProjectApprovalSettings env cfg p dryrun rs.2.1
  (ra.2.1, rb.2 ++ rs.2.2 ++ ra.2.2,
    logOf rb.1 (.branches p.fullPath) ++ logOf rs.1 (.settings p.fullPath)
      ++ logOf ra.1 (.approval p.fullPath))

/-- The sync run loop over all discovered projects (src/cmd/sync.go): every
project is processed whatever happened to the previous ones. -/
def runAll (env : SyncEnv) (cfg : Config) (dryrun : Bool) :
    List Project → MState → MState × List Ev × List LogErr
  | [], st => (st, [], [])
  | p :: rest, st =>
    let r1 := syncOne env cfg p dryrun st
    let r2 := runAll env cfg dryrun rest r1.1
    (r2.1, r1.2.1 ++ r2.2.1, r1.2.2 ++ r2.2.2)

theorem recordSettings_keys_nodup (m : SettingsMap) (path : String)
    (a g : Option Fields) (h : (m.map Prod.fst).Nodup) :
    ((recordSettings ⟨m, path, a, g⟩).map Prod.fst).Nodup := by
  rw [recordSettings]
  exact alistSet_keys_nodup _ _ _ h

theorem diffFields_self (proj sec : String) (f : Fields) :
    diffFields proj sec f f = [] := by
  induction f with
  | nil => rfl
  | cons kv fs ih =>
    obtain ⟨k, v⟩ := kv
    rw [diffFields]
    simp [ih]

theorem diffProject_self (proj : String) (s : ProjectSettings) :
    diffProject proj s s = [] := by
  rw [diffProject, diffFields_self, diffFields_self]
  rfl

theorem alistGet_of_nodup_mem (l : List (String × α)) (pr : String × α)
    (hnd : (l.map Prod.fst).Nodup) (hmem : pr ∈ l) : alistGet pr.1 l = some pr.2 := by
  induction l with
  | nil => cases hmem
  | cons hd tl ih =>
    simp only [List.map_cons, List.nodup_cons] at hnd
    rcases List.mem_cons.mp hmem with h | h
    · subst h
      simp [alistGet]
    · have hne : hd.1 ≠ pr.1 := by
        intro he
        exact hnd.1 (he ▸ List.mem_map_of_mem Prod.fst h)
      rw [alistGet, if_neg hne]
      exact ih hnd.2 h

theorem diffSnapshots_of_lookup (b a : SettingsMap)
    (h : ∀ pr ∈ b, alistGet pr.1 a = some pr.2) : diffSnapshots b a = [] := by
  induction b with
  | nil => rfl
  | cons pr tl ih =>
    rw [diffSnapshots]
    simp only [List.foldr_cons]
    rw [h pr (List.mem_cons_self _ _)]
    dsimp only
    rw [diffProject_self]
    have := ih fun q hq => h q (List.mem_cons_of_mem _ hq)
    rw [diffSnapshots] at this
    simpa using this

theorem diffSnapshots_self (l : SettingsMap) (hnd : (l.map Prod.fst).Nodup) :
    diffSnapshots l l = [] :=
  diffSnapshots_of_lookup l l fun pr hpr => alistGet_of_nodup_mem l pr hnd hpr

theorem updateProjectSettings_dryrun (env : SyncEnv) (cfg : Config) (p : Project) (st : MState)
    (h : st.original = st.updated) (hnd : (st.original.map Prod.fst).Nodup) :
    (updateProjectSettings env cfg p true st).2.1.original
        = (updateProjectSettings env cfg p true st).2.1.updated
    ∧ (((updateProjectSettings env cfg p true st).2.1.original.map Prod.fst).Nodup)
    ∧ (((updateProjectSettings env cfg p true st).2.2).all fun e => !e.mutating) = true := by
  rw [updateProjectSettings]
  cases hcs : cfg.projectSettings with
  | none => exact ⟨h, hnd, rfl⟩
  | some epo =>
    dsimp only
    cases hgp : env.getProject p.id with
    | error e => exact ⟨h, hnd, rfl⟩
    | ok ps =>
      dsimp only
      rw [if_pos rfl]
      dsimp only
      refine ⟨by rw [h], recordSettings_keys_nodup _ _ _ _ hnd, rfl⟩

theorem updateProjectApprovalSettings_dryrun (env : SyncEnv) (cfg : Config) (p : Project)
    (st : MState) (h : st.original = st.updated) (hnd : (st.original.map Prod.fst).Nodup) :
    (updateProjectApprovalSettings env cfg p true st).2.1.original
        = (updateProjectApprovalSettings env cfg p true st).2.1.updated
    ∧ (((updateProjectApprovalSettings env cfg p true st).2.1.original.map Prod.fst).Nodup)
    ∧ (((updateProjectApprovalSettings env cfg p true st).2.2).all fun e => !e.mutating) = true := by
  rw [updateProjectApprovalSettings]
  cases hcs : cfg.approvalSettings with
  | none => exact ⟨h, hnd, rfl⟩
  | some u =>
    dsimp only
    cases hga : env.getApproval p.id with
    | error e => exact ⟨h, hnd, rfl⟩
    | ok aps =>
      dsimp only
      rw [if_pos rfl]
      dsimp only
      refine ⟨by rw [h], recordSettings_keys_nodup _ _ _ _ hnd, rfl⟩

theorem protectLoop_dryrun (env : SyncEnv) (pid : Nat) (rules : List ProtectedBranch) :
    protectLoop env pid true rules = (.ok (), []) := by
  induction rules with
  | nil => rfl
  | cons b rest ih => rw [protectLoop, if_pos rfl, ih]

theorem ensureDefaultBranch_dryrun_trace (env : SyncEnv) (cfg : Config) (p : Project) :
    (((ensureDefaultBranch env cfg p true).2).all fun e => !e.mutating) = true := by
  rw [ensureDefaultBranch]
  cases defaultBranchGuard cfg with
  | none => rfl
  | some b =>
    dsimp only
    cases env.getBranchErr p.id b with
    | none => rfl
    | some status =>
      dsimp only
      by_cases hs : status ≠ 404
      · rw [if_pos hs]; rfl
      · rw [if_neg hs, if_pos rfl]; rfl

theorem ensureBranches_dryrun_trace (env : SyncEnv) (cfg : Config) (p : Project) :
    (((ensureBranchesAndProtection env cfg p true).2).all fun e => !e.mutating) = true := by
  rw [ensureBranchesAndProtection]
  have ht := ensureDefaultBranch_dryrun_trace env cfg p
  rcases hd : ensureDefaultBranch env cfg p true with ⟨r, t⟩
  rw [hd] at ht
  cases r with
  | error e => exact ht
  | ok u =>
    dsimp only
    rw [protectLoop_dryrun]
    simpa using ht

theorem syncOne_dryrun (env : SyncEnv) (cfg : Config) (p : Project) (st : MState)
    (h : st.original = st.updated) (hnd : (st.original.map Prod.fst).Nodup) :
    (syncOne env cfg p true st).1.original = (syncOne env cfg p true st).1.updated
    ∧ (((syncOne env cfg p true st).1.original.map Prod.fst).Nodup)
    ∧ (((syncOne env cfg p true st).2.1).all fun e => !e.mutating) = true := by
  have h1 := updateProjectSettings_dryrun env cfg p st h hnd
  have h2 := updateProjectApprovalSettings_dryrun env cfg p
    (updateProjectSettings env cfg p true st).2.1 h1.1 h1.2.1
  refine ⟨h2.1, h2.2.1, ?_⟩
  rw [syncOne]
  dsimp only
  rw [List.all_append, List.all_append]
  rw [ensureBranches_dryrun_trace, h1.2.2, h2.2.2]
  rfl

theorem runAll_dryrun (env : SyncEnv) (cfg : Config) :
    ∀ (ps : List Project) (st : MState), st.original = st.updated →
      ((st.original.map Prod.fst).Nodup) →
      ((runAll env cfg true ps st).1.original = (runAll env cfg true ps st).1.updated
        ∧ (((runAll env cfg true ps st).1.original.map Prod.fst).Nodup)
        ∧ (((runAll env cfg true ps st).2.1).all fun e => !e.mutating) = true) := by
  intro ps
  induction ps with
  | nil => intro st h hnd; exact ⟨h, hnd, rfl⟩
  | cons p rest ih =>
    intro st h hnd
    have h1 := syncOne_dryrun env cfg p st h hnd
    have h2 := ih (syncOne env cfg p true st).1 h1.1 h1.2.1
    refine ⟨h2.1, h2.2.1, ?_⟩
    rw [runAll]
    dsimp only
    rw [List.all_append, h1.2.2, h2.2.2]
    rfl

/-- C1 — in dry-run mode the whole sync run issues no mutating remote call
(no EditProject, ChangeApprovalConfiguration, ProtectRepositoryBranches,
UnprotectRepositoryBranches or CreateBranch event appears in the trace), and
— the environment being read-deterministic, i.e. the two read-only fetches of
each section return the same remote state — the before and after snapshot
maps come out equal, so the diff is empty for every project. -/
theorem C1_dryrun_no_mutation_empty_diff (env : SyncEnv) (cfg : Config) (ps : List Project)
    (st : MState) (h : st.original = st.updated) (hnd : (st.original.map Prod.fst).Nodup) :
    (runAll env cfg true ps st).1.original = (runAll env cfg true ps st).1.updated
    ∧ (((runAll env cfg true ps st).2.1).all fun e => !e.mutating) = true
    ∧ diffSnapshots (runAll env cfg true ps st).1.original
        (runAll env cfg true ps st).1.updated = [] := by
  have hr := runAll_dryrun env cfg ps st h hnd
  refine ⟨hr.1, hr.2.2, ?_⟩
  have hd := diffSnapshots_self (runAll env cfg true ps st).1.original hr.2.1
  nth_rewrite 2 [hr.1] at hd
  exact hd

/-- A concrete all-successful sync environment for witnesses: the default
branch does not exist yet (404 on lookup), every other call succeeds. -/
def envW : SyncEnv where
  getProject _ := .ok [("Visibility", "private")]
  editErr _ := false
  getApproval _ := .ok [("ApprovalsBeforeMerge", "1")]
  changeApprovalErr _ := false
  getBranchErr _ _ := some 404
  createErr _ _ := false
  unprotectErr _ _ := none
  protectErr _ _ := false

/-- A concrete config for witnesses: default-branch creation on, one
protected branch, both settings sections present. -/
def cfgW : Config :=
  ⟨"g", [], [], true, [⟨"develop", 40, 30⟩], some ⟨some "develop"⟩, some ()⟩

/-- Witness for C1: a concrete dry-run over one project with one protected
branch and both settings sections present, starting from empty snapshot
maps. -/
theorem C1_dryrun_no_mutation_empty_diff_witness :
    (runAll envW cfgW true [⟨1, "p", "g/p"⟩] ⟨[], []⟩).1.original
        = (runAll envW cfgW true [⟨1, "p", "g/p"⟩] ⟨[], []⟩).1.updated
    ∧ (((runAll envW cfgW true [⟨1, "p", "g/p"⟩] ⟨[], []⟩).2.1).all fun e => !e.mutating) = true
    ∧ diffSnapshots (runAll envW cfgW true [⟨1, "p", "g/p"⟩] ⟨[], []⟩).1.original
        (runAll envW cfgW true [⟨1, "p", "g/p"⟩] ⟨[], []⟩).1.updated = [] :=
  C1_dryrun_no_mutation_empty_diff envW cfgW [⟨1, "p", "g/p"⟩] ⟨[], []⟩ rfl List.nodup_nil

/-- C7 — a fatal unprotect response (error with status other than 404) or a
protect failure for one configured branch makes EnsureBranchesAndProtection
return an error at once, with no call issued for the remaining rules; a 404
on unprotect is tolerated and the rule proceeds to protect; and the sync loop
always runs the settings and approval reconciliation of the project and every
later project anyway, logging the branch failure with the project path. -/
theorem C7_failfast_then_continue (env : SyncEnv) (cfg : Config) (pid : Nat)
    (b : ProtectedBranch) (rest : List ProtectedBranch) (p : Project)
    (ps : List Project) (st : MState) :
    (unprotectFatal (env.unprotectErr pid b.name) = true →
      protectLoop env pid false (b :: rest) = (.error (), [Ev.unprotect pid b.name]))
    ∧ (unprotectFatal (env.unprotectErr pid b.name) = false →
        env.protectErr pid b.name = true →
        protectLoop env pid false (b :: rest) =
          (.error (), [Ev.unprotect pid b.name,
            Ev.protect pid b.name b.pushAccessLevel b.mergeAccessLevel]))
    ∧ (unprotectFatal (env.unprotectErr pid b.name) = false →
        env.protectErr pid b.name = false →
        protectLoop env pid false (b :: rest) =
          ((protectLoop env pid false rest).1, Ev.unprotect pid b.name
            :: Ev.protect pid b.name b.pushAccessLevel b.mergeAccessLevel
            :: (protectLoop env pid false rest).2))
    ∧ ((syncOne env cfg p false st).2.1 =
        (ensureBranchesAndProtection env cfg p false).2
          ++ (updateProjectSettings env cfg p false st).2.2
          ++ (updateProjectApprovalSettings env cfg p false
                (updateProjectSettings env cfg p false st).2.1).2.2)
    ∧ ((ensureBranchesAndProtection env cfg p false).1 = .error () →
        LogErr.branches p.fullPath ∈ (syncOne env cfg p false st).2.2)
    ∧ ((runAll env cfg false (p :: ps) st).2.1 =
        (syncOne env cfg p false st).2.1
          ++ (runAll env cfg false ps (syncOne env cfg p false st).1).2.1) := by
  refine ⟨?_, ?_, ?_, rfl, ?_, rfl⟩
  · intro h
    rw [protectLoop]
    simp [h]
  · intro h1 h2
    rw [protectLoop]
    simp [h1, h2]
  · intro h1 h2
    rw [protectLoop]
    simp [h1, h2]
  · intro h
    rw [syncOne]
    dsimp only
    rw [h]
    simp [logOf]

/-- The C7 witness environment: unprotect fails with status 500 on every
branch, everything else succeeds. -/
def envC7 : SyncEnv := { envW with unprotectErr := fun _ _ => some 500 }

/-- Witness for C7: the first rule's fatal unprotect aborts the loop before
the second rule, and the sync loop logs the branch failure for the project. -/
theorem C7_failfast_then_continue_witness :
    protectLoop envC7 1 false [⟨"develop", 40, 30⟩, ⟨"master", 40, 30⟩] =
      (.error (), [Ev.unprotect 1 "develop"])
    ∧ LogErr.branches "g/p" ∈ (syncOne envC7 cfgW ⟨1, "p", "g/p"⟩ false ⟨[], []⟩).2.2 :=
  ⟨(C7_failfast_then_continue envC7 cfgW 1 ⟨"develop", 40, 30⟩ [⟨"master", 40, 30⟩]
      ⟨1, "p", "g/p"⟩ [] ⟨[], []⟩).1 (by decide),
   (C7_failfast_then_continue envC7 cfgW 1 ⟨"develop", 40, 30⟩ [⟨"master", 40, 30⟩]
      ⟨1, "p", "g/p"⟩ [] ⟨[], []⟩).2.2.2.2.1 rfl⟩

/-! ## Remote protection-state semantics for the branch reconciler -/

/-- The remote protection state: for each branch name, the protected
push/merge access levels, or none when unprotected. -/
def ProtState := String → Option (Nat × Nat)

/-- The remote effect of one issued call (spec section 6):
UnprotectRepositoryBranches removes the named protection,
ProtectRepositoryBranches installs exactly the given levels; read calls
change nothing. -/
def applyEv (s : ProtState) : Ev → ProtState
  | Ev.unprotect _ b => fun n => if n = b then none else s n
  | Ev.protect _ b push mrg => fun n => if n = b then some (push, mrg) else s n
  | _ => s

/-- The remote protection state after a trace of issued calls. -/
def applyEvents (s : ProtState) (t : List Ev) : ProtState := t.foldl applyEv s

/-- What one event forces the state at branch n to, if it touches n at
all. -/
def evTouch (n : String) : Ev → Option (Option (Nat × Nat))
  | Ev.unprotect _ b => if n = b then some none else none
  | Ev.protect _ b push mrg => if n = b then some (some (push, mrg)) else none
  | _ => none

/-- The value the LAST event of the trace touching branch n forces, if any
event touches it. -/
def lastEffect (n : String) : List Ev → Option (Option (Nat × Nat))
  | [] => none
  | e :: t =>
    match lastEffect n t with
    | some v => some v
    | none => evTouch n e

theorem applyEv_point (s : ProtState) (e : Ev) (n : String) :
    applyEv s e n = (evTouch n e).getD (s n) := by
  cases e <;> simp only [applyEv, evTouch] <;> try rfl
  all_goals split <;> rfl

theorem applyEvents_char (t : List Ev) :
    ∀ (s : ProtState) (n : String), applyEvents s t n = (lastEffect n t).getD (s n) := by
  induction t with
  | nil => intro s n; rfl
  | cons e t ih =>
    intro s n
    show applyEvents (applyEv s e) t n = _
    rw [ih (applyEv s e) n, lastEffect]
    cases hlt : lastEffect n t with
    | some v => rfl
    | none =>
      rw [applyEv_point]
      cases evTouch n e <;> rfl

theorem applyEvents_idem (t : List Ev) (s : ProtState) (n : String) :
    applyEvents (applyEvents s t) t n = applyEvents s t n := by
  rw [applyEvents_char t (applyEvents s t) n, applyEvents_char t s n]
  cases lastEffect n t <;> rfl

/-- The full trace the protection loop issues when every rule succeeds. -/
def rulesTrace (pid : Nat) : List ProtectedBranch → List Ev
  | [] => []
  | b :: rest => Ev.unprotect pid b.name
      :: Ev.protect pid b.name b.pushAccessLevel b.mergeAccessLevel :: rulesTrace pid rest

theorem protectLoop_ok_trace (env : SyncEnv) (pid : Nat) :
    ∀ rules : List ProtectedBranch, (protectLoop env pid false rules).1 = .ok () →
      (protectLoop env pid false rules).2 = rulesTrace pid rules := by
  intro rules
  induction rules with
  | nil => intro h; rfl
  | cons b rest ih =>
    intro h
    rw [protectLoop] at h ⊢
    simp only [Bool.false_eq_true, if_false] at h ⊢
    by_cases h1 : unprotectFatal (env.unprotectErr pid b.name) = true
    · rw [if_pos h1] at h; cases h
    · rw [if_neg h1] at h ⊢
      by_cases h2 : env.protectErr pid b.name = true
      · rw [if_pos h2] at h; cases h
      · rw [if_neg h2] at h ⊢
        rw [rulesTrace]
        simpa using ih h

theorem lastEffect_rulesTrace_notmem (pid : Nat) (n : String) :
    ∀ rules : List ProtectedBranch, (∀ b ∈ rules, b.name ≠ n) →
      lastEffect n (rulesTrace pid rules) = none := by
  intro rules
  induction rules with
  | nil => intro h; rfl
  | cons b rest ih =>
    intro h
    have hn : ¬n = b.name := fun he => h b (List.mem_cons_self _ _) he.symm
    rw [rulesTrace, lastEffect, lastEffect,
      ih fun q hq => h q (List.mem_cons_of_mem _ hq)]
    simp [evTouch, hn]

theorem lastEffect_rulesTrace_mem (pid : Nat) :
    ∀ (rules : List ProtectedBranch) (b : ProtectedBranch),
      (rules.map fun r => r.name).Nodup → b ∈ rules →
      lastEffect b.name (rulesTrace pid rules) =
        some (some (b.pushAccessLevel, b.mergeAccessLevel)) := by
  intro rules
  induction rules with
  | nil => intro b _ hmem; cases hmem
  | cons r rest ih =>
    intro b hnd hmem
    simp only [List.map_cons, List.nodup_cons] at hnd
    rcases List.mem_cons.mp hmem with h | h
    · subst h
      have hnot : ∀ q ∈ rest, q.name ≠ b.name := by
        intro q hq he
        exact hnd.1 (he ▸ List.mem_map_of_mem (fun r => r.name) hq)
      rw [rulesTrace, lastEffect, lastEffect,
        lastEffect_rulesTrace_notmem pid b.name rest hnot]
      simp [evTouch]
    · rw [rulesTrace, lastEffect, lastEffect, ih b hnd.2 h]

/-- C5 — the remote protection effect of one EnsureBranchesAndProtection
protection pass is idempotent: applying the issued trace twice from any
initial remote state leaves every branch exactly as applying it once; and
when the pass succeeds with distinctly named rules, every configured branch
ends at exactly its configured push/merge levels, whatever differently
configured protection existed before. -/
theorem C5_protection_idempotent_converges (env : SyncEnv) (pid : Nat)
    (rules : List ProtectedBranch) (s : ProtState) (n : String) :
    applyEvents (applyEvents s (protectLoop env pid false rules).2)
        (protectLoop env pid false rules).2 n
      = applyEvents s (protectLoop env pid false rules).2 n
    ∧ ((protectLoop env pid false rules).1 = .ok () →
        ((rules.map fun r => r.name).Nodup) →
        ∀ b ∈ rules, applyEvents s (protectLoop env pid false rules).2 b.name
          = some (b.pushAccessLevel, b.mergeAccessLevel)) := by
  refine ⟨applyEvents_idem _ s n, fun hok hnd b hb => ?_⟩
  rw [protectLoop_ok_trace env pid rules hok,
    applyEvents_char, lastEffect_rulesTrace_mem pid rules b hnd hb]
  rfl

/-- Witness for C5: after a successful pass over one develop rule from the
empty protection state, develop carries exactly the configured levels. -/
theorem C5_protection_idempotent_converges_witness :
    applyEvents (fun _ => none) (protectLoop envW 1 false [⟨"develop", 40, 30⟩]).2 "develop"
      = some (40, 30) :=
  (C5_protection_idempotent_converges envW 1 [⟨"develop", 40, 30⟩] (fun _ => none)
    "develop").2 rfl (by decide) ⟨"develop", 40, 30⟩ (by decide)

/-! ## Nil-response safety of the error branches (C10) -/

/-- An HTTP response as read by the error branches: just the status code. -/
structure HResp where
  statusCode : Nat
deriving DecidableEq, Repr

/-- The outcome of straight-line Go code that may dereference a nil
pointer. -/
inductive GoEval (α : Type)
  | ok (v : α)
  | nilPanic
deriving DecidableEq, Repr

/-- The condition at line 180 on the raw (resp, err) pair returned by
UnprotectRepositoryBranches: err != nil short-circuits, and only then is
resp.StatusCode read — a dereference of resp that panics when resp is nil.
ok true means the loop aborts with an error, ok false that it proceeds to
protect. -/
def unprotectErrBranch (resp : Option HResp) (err : Option Unit) : GoEval Bool :=
  match err with
  | none => .ok false
  | some _ =>
    match resp with
    | none => .nilPanic
    | some r => .ok (r.statusCode != 404)

/-- How ensureDefaultBranch proceeds after GetBranch. -/
inductive BranchCheck
  | found
  | fatal
  | notFound
deriving DecidableEq, Repr

/-- The branches at lines 213-221 on the raw (resp, err) pair returned by
GetBranch: err == nil means the branch exists; otherwise resp.StatusCode is
read — panicking when resp is nil — and any status other than 404 is
fatal. -/
def getBranchErrBranch (resp : Option HResp) (err : Option Unit) : GoEval BranchCheck :=
  match err with
  | none => .ok .found
  | some _ =>
    match resp with
    | none => .nilPanic
    | some r => .ok (if r.statusCode != 404 then .fatal else .notFound)

/-- C10 — the error branches after UnprotectRepositoryBranches and GetBranch
read resp.StatusCode whenever the call returned an error, so they are free of
a nil-pointer dereference exactly under the precondition that the client
pairs every error with a non-nil response: whenever errors imply a present
response neither branch panics, and on a nil response alongside an error both
branches panic. -/
theorem C10_nil_response_precondition :
    (∀ (resp : Option HResp) (err : Option Unit), (err.isSome → resp.isSome) →
      unprotectErrBranch resp err ≠ .nilPanic ∧ getBranchErrBranch resp err ≠ .nilPanic)
    ∧ unprotectErrBranch none (some ()) = .nilPanic
    ∧ getBranchErrBranch none (some ()) = .nilPanic := by
  refine ⟨?_, rfl, rfl⟩
  intro resp err h
  cases err with
  | none => exact ⟨by simp [unprotectErrBranch], by simp [getBranchErrBranch]⟩
  | some u =>
    cases resp with
    | none => simp at h
    | some r =>
      constructor
      · simp only [unprotectErrBranch]
        intro hc
        cases hc
      · simp only [getBranchErrBranch]
        intro hc
        split at hc <;> cases hc

/-- Witness for C10: a 500-status response present alongside the error makes
both branches evaluate without a panic. -/
theorem C10_nil_response_precondition_witness :
    unprotectErrBranch (some ⟨500⟩) (some ()) ≠ .nilPanic
    ∧ getBranchErrBranch (some ⟨500⟩) (some ()) ≠ .nilPanic :=
  C10_nil_response_precondition.1 (some ⟨500⟩) (some ()) (by decide)

/-- Witness for the amended C6: the changelog of the two-entry difflog of the
counterexample pair is well-formed (no duplicate keys at either level). -/
theorem C6_changelog_amended_witness :
    ChangelogWF (buildChangelog (diffSnapshots beforeC6 afterC6)) :=
  C6_changelog_amended.2 (diffSnapshots beforeC6 afterC6)

end GSE
